import Mathlib

/-!
# Currency swap form (problem2): price-list normalisation and conversion state

A shallow embedding of `src/problem2/src/App.jsx` and
`src/problem2/src/components/IconListBox.jsx`.

* JavaScript values are the type `JSVal`; numbers are `JSNum`, the IEEE 754
  binary64 values.  A finite value is given by the rational it denotes; the
  operators `/` and `*` and the conversion of a string compute the exact
  result and round it to the nearest binary64 value, ties to even, with
  overflow to an infinity, gradual underflow and a signed zero.
* React state is one record, `AppState`; every handler is a function from the
  state before the event to the state after it, together with how the handler
  completed (normally or by throwing).
-/

namespace Swap

/-! ## JavaScript numbers and values -/

/-- A JavaScript number, an IEEE 754 binary64 value: `NaN`, the infinities,
negative zero, or a finite value (`fin 0` is positive zero), each finite value
given by the rational it denotes.  Every number the operators below and
`ToNumber` produce is rounded to a binary64 value; a number that enters from
outside (a price of the feed) is taken to be one. -/
inductive JSNum where
  | nan
  | posInf
  | negInf
  | negZero
  | fin (q : ℚ)
  deriving DecidableEq, Repr

/-- A JavaScript primitive value, as carried by the feed and by React state. -/
inductive JSVal where
  | undefined
  | null
  | bool (b : Bool)
  | num (n : JSNum)
  | str (s : String)
  deriving DecidableEq, Repr

/-- An infinity with the given sign (`true` is negative). -/
def JSNum.infOfSign (neg : Bool) : JSNum :=
  if neg then .negInf else .posInf

/-- A zero with the given sign (`true` is negative). -/
def JSNum.zeroOfSign (neg : Bool) : JSNum :=
  if neg then .negZero else .fin 0

/-- The sign bit of a number other than `NaN` (`true` is negative). -/
def JSNum.signBit : JSNum → Bool
  | .nan => false
  | .posInf => false
  | .negInf => true
  | .negZero => true
  | .fin q => decide (q < 0)

/-- The magnitude of a finite number; `none` for `NaN` and the infinities. -/
def JSNum.mag : JSNum → Option ℚ
  | .negZero => some 0
  | .fin q => some (if q < 0 then -q else q)
  | _ => none

/-! ### Rounding to binary64 -/

/-- The power `b ^ n` of natural numbers by repeated squaring; `fuel` bounds
the number of halvings of the exponent. -/
def powNat : Nat → Nat → Nat → Nat
  | 0, _, _ => 1
  | fuel + 1, b, n =>
      if n = 0 then 1
      else (if n % 2 = 1 then b else 1) * powNat fuel (b * b) (n / 2)

/-- Two to an integer power, as a rational. -/
def pow2 (e : Int) : ℚ :=
  if e < 0 then 1 / (powNat e.natAbs 2 e.natAbs : ℚ) else (powNat e.natAbs 2 e.natAbs : ℚ)

/-- The number of binary digits of a natural number, by halving; `fuel` bounds
the number of halvings. -/
def bitLength : Nat → Nat → Nat
  | 0, _ => 0
  | fuel + 1, n => if n = 0 then 0 else bitLength fuel (n / 2) + 1

/-- The integer `e` with `2 ^ e ≤ a < 2 ^ (e + 1)`, for a positive rational. -/
def floorLog2 (a : ℚ) : Int :=
  let n := a.num.natAbs
  let e0 : Int := (bitLength n n : Int) - (bitLength a.den a.den : Int)
  if a < pow2 e0 then e0 - 1 else e0

/-- The integer nearest to a rational that is not negative, a tie going to the
even one. -/
def roundHalfEven (x : ℚ) : Nat :=
  let fl := x.num.natAbs / x.den
  let r := x - (fl : ℚ)
  if r < 1 / 2 then fl
  else if 1 / 2 < r then fl + 1
  else if fl % 2 = 0 then fl
  else fl + 1

/-- Rounds a magnitude to the nearest binary64 magnitude, ties to even: 53
significant bits for a normal value, multiples of `2 ^ -1074` below
`2 ^ -1022`; `none` when the result is `2 ^ 1024` or more (overflow). -/
def roundMag (a : ℚ) : Option ℚ :=
  if a = 0 then some 0
  else
    let e := max (floorLog2 a) (-1022)
    let quantum := pow2 (e - 52)
    let r := (roundHalfEven (a / quantum) : ℚ) * quantum
    if pow2 1024 ≤ r then none else some r

/-- The binary64 value of sign `neg` nearest to the magnitude `a`. -/
def JSNum.ofSignMag (neg : Bool) (a : ℚ) : JSNum :=
  match roundMag a with
  | none => JSNum.infOfSign neg
  | some r =>
      if r = 0 then JSNum.zeroOfSign neg
      else .fin (if neg then -r else r)

/-- The operator `x / y` on numbers. -/
def JSNum.div (x y : JSNum) : JSNum :=
  if x = .nan ∨ y = .nan then .nan
  else
    let neg := xor x.signBit y.signBit
    match x.mag, y.mag with
    | none, none => .nan
    | none, some _ => JSNum.infOfSign neg
    | some _, none => JSNum.zeroOfSign neg
    | some a, some b =>
        if b = 0 then (if a = 0 then .nan else JSNum.infOfSign neg)
        else JSNum.ofSignMag neg (a / b)

/-- The operator `x * y` on numbers. -/
def JSNum.mul (x y : JSNum) : JSNum :=
  if x = .nan ∨ y = .nan then .nan
  else
    let neg := xor x.signBit y.signBit
    match x.mag, y.mag with
    | none, none => JSNum.infOfSign neg
    | none, some b => if b = 0 then .nan else JSNum.infOfSign neg
    | some a, none => if a = 0 then .nan else JSNum.infOfSign neg
    | some a, some b => JSNum.ofSignMag neg (a * b)

/-! ### `ToNumber` on strings -/

/-- The code points `StringToNumber` strips from both ends. -/
def isStrWhiteSpace (c : Char) : Bool :=
  let n := c.toNat
  (9 ≤ n && n ≤ 13) || n = 0x20 || n = 0xA0 || n = 0x1680 ||
  (0x2000 ≤ n && n ≤ 0x200A) || n = 0x2028 || n = 0x2029 || n = 0x202F ||
  n = 0x205F || n = 0x3000 || n = 0xFEFF

/-- The value of a digit in the given radix, if the character is one. -/
def digitVal (radix : Nat) (c : Char) : Option Nat :=
  let n := c.toNat
  let v :=
    if 48 ≤ n ∧ n ≤ 57 then some (n - 48)
    else if 97 ≤ n ∧ n ≤ 102 then some (n - 87)
    else if 65 ≤ n ∧ n ≤ 70 then some (n - 55)
    else none
  match v with
  | some d => if d < radix then some d else none
  | none => none

/-- Reads a non-empty run of digits; `none` when a character is not a digit
or the run is empty. -/
def readDigits (radix : Nat) (cs : List Char) : Option Nat :=
  if cs.isEmpty then none
  else cs.foldl
    (fun acc c =>
      match acc, digitVal radix c with
      | some a, some d => some (a * radix + d)
      | _, _ => none)
    (some 0)

/-- Drops leading white space. -/
def dropWs (cs : List Char) : List Char :=
  cs.dropWhile isStrWhiteSpace

/-- Strips white space from both ends. -/
def trimWs (cs : List Char) : List Char :=
  (dropWs (dropWs cs).reverse).reverse

/-- Ten to an integer power, as a rational. -/
def pow10 (e : Int) : ℚ :=
  if e < 0 then 1 / (powNat e.natAbs 10 e.natAbs : ℚ) else (powNat e.natAbs 10 e.natAbs : ℚ)

/-- The grammar `SignedInteger`: digits with an optional sign. -/
def readSignedInt (cs : List Char) : Option Int :=
  match cs with
  | '+' :: rest => (readDigits 10 rest).map Int.ofNat
  | '-' :: rest => (readDigits 10 rest).map (fun n => - Int.ofNat n)
  | _ => (readDigits 10 cs).map Int.ofNat

/-- Splits a list at the first character satisfying `p`; the second part
starts after that character, and is `none` when there is none. -/
def splitAt1 (p : Char → Bool) (cs : List Char) : List Char × Option (List Char) :=
  match cs.span (fun c => !p c) with
  | (a, []) => (a, none)
  | (a, _ :: b) => (a, some b)

/-- The mathematical value of a `StrUnsignedDecimalLiteral` other than
`Infinity`: `digits . digits? exp?`, `. digits exp?` or `digits exp?`. -/
def readUnsignedDecimal (cs : List Char) : Option ℚ :=
  let (mant, ex) := splitAt1 (fun c => c = 'e' || c = 'E') cs
  let e : Option Int :=
    match ex with
    | none => some 0
    | some t => readSignedInt t
  let (ip, fp) := splitAt1 (fun c => c = '.') mant
  let m : Option ℚ :=
    match fp with
    | none => (readDigits 10 ip).map (fun n => (n : ℚ))
    | some f =>
        if ip.isEmpty then
          (readDigits 10 f).map (fun n => (n : ℚ) * pow10 (- Int.ofNat f.length))
        else if f.isEmpty then
          (readDigits 10 ip).map (fun n => (n : ℚ))
        else
          match readDigits 10 ip, readDigits 10 f with
          | some a, some b => some ((a : ℚ) + (b : ℚ) * pow10 (- Int.ofNat f.length))
          | _, _ => none
  match m, e with
  | some q, some k => some (q * pow10 k)
  | _, _ => none

/-- The grammar `StrUnsignedDecimalLiteral`, with the sign that precedes it:
the mathematical value rounded to binary64. -/
def readUnsigned (neg : Bool) (cs : List Char) : Option JSNum :=
  if cs = "Infinity".toList then some (JSNum.infOfSign neg)
  else (readUnsignedDecimal cs).map (JSNum.ofSignMag neg)

/-- The abstract operation `StringToNumber`. -/
def stringToNumber (s : String) : JSNum :=
  let cs := trimWs s.toList
  let r : Option JSNum :=
    match cs with
    | [] => some (.fin 0)
    | '0' :: 'x' :: rest => (readDigits 16 rest).map (fun n => JSNum.ofSignMag false n)
    | '0' :: 'X' :: rest => (readDigits 16 rest).map (fun n => JSNum.ofSignMag false n)
    | '0' :: 'o' :: rest => (readDigits 8 rest).map (fun n => JSNum.ofSignMag false n)
    | '0' :: 'O' :: rest => (readDigits 8 rest).map (fun n => JSNum.ofSignMag false n)
    | '0' :: 'b' :: rest => (readDigits 2 rest).map (fun n => JSNum.ofSignMag false n)
    | '0' :: 'B' :: rest => (readDigits 2 rest).map (fun n => JSNum.ofSignMag false n)
    | '+' :: rest => readUnsigned false rest
    | '-' :: rest => readUnsigned true rest
    | _ => readUnsigned false cs
  r.getD .nan

/-- The abstract operation `ToNumber`. -/
def toNumber : JSVal → JSNum
  | .undefined => .nan
  | .null => .fin 0
  | .bool b => if b then .fin 1 else .fin 0
  | .num n => n
  | .str s => stringToNumber s

/-- The loose comparison `v != ""`: the empty string converts to zero, which
equals both zeros and nothing else. -/
def looseNeEmpty : JSVal → Bool
  | .undefined => true
  | .null => true
  | .str s => s != ""
  | v => toNumber v != .fin 0 && toNumber v != .negZero

/-! ## Data model -/

/-- An entry of the price feed, and a normalised quote.  `price` is
`undefined` when the object has no such property; `fields` holds the other own
properties (`date`, `avatar`, ...) in order. -/
structure Item where
  currency : String
  price : JSVal
  fields : List (String × JSVal)
  deriving DecidableEq, Repr

/-- Writes property `k` of an object literal: an existing property keeps its
place and takes the value, a new one goes last. -/
def setField (fs : List (String × JSVal)) (k : String) (v : JSVal) :
    List (String × JSVal) :=
  if fs.any (fun p => p.1 == k) then
    fs.map (fun p => if p.1 == k then (k, v) else p)
  else fs ++ [(k, v)]

/-- Reads property `k`; `undefined` when absent. -/
def getField (fs : List (String × JSVal)) (k : String) : JSVal :=
  match fs.find? (fun p => p.1 == k) with
  | some p => p.2
  | none => .undefined

/-- The template literal for the icon of a currency. -/
def avatarUrl (currency : String) : String :=
  "https://raw.githubusercontent.com/Switcheo/token-icons/main/tokens/" ++
    currency ++ ".svg?raw=true"

/-- The object literal `{ ...item, avatar: <template> }`. -/
def withAvatar (item : Item) : Item :=
  { item with fields := setField item.fields "avatar" (.str (avatarUrl item.currency)) }

/-- The property `avatar` of an item. -/
def Item.avatar (item : Item) : JSVal :=
  getField item.fields "avatar"

/-! ### `Map`, keyed by currency, in insertion order -/

/-- A JavaScript `Map` from currency codes to items: its entries in insertion
order. -/
abbrev JSMap := List (String × Item)

/-- The method `Map.prototype.has`. -/
def JSMap.has (m : JSMap) (k : String) : Bool :=
  m.any (fun p => p.1 == k)

/-- The method `Map.prototype.set`: an existing key keeps its position. -/
def JSMap.set (m : JSMap) (k : String) (v : Item) : JSMap :=
  if JSMap.has m k then m.map (fun p => if p.1 == k then (k, v) else p)
  else m ++ [(k, v)]

/-- The expression `Array.from(m.values())`. -/
def JSMap.values (m : JSMap) : List Item :=
  m.map (fun p => p.2)

/-! ## `processData` -/

/-- The callback passed to `forEach` in `processData`, as a transformer of the
map it updates. -/
def processData.visit (uniqueCurrencies : JSMap) (item : Item) : JSMap :=
  if !JSMap.has uniqueCurrencies item.currency && item.price != JSVal.undefined then
    JSMap.set uniqueCurrencies item.currency (withAvatar item)
  else uniqueCurrencies

/-- The function `processData` of `App.jsx`, on an array of entries. -/
def processData (currencyData : List Item) : List Item :=
  JSMap.values (currencyData.foldl processData.visit [])

/-! ### The normaliser as the specification words it -/

/-- The normaliser of the specification: walking the entries in order with the
list of currencies accepted so far, an entry is accepted when its currency is
not among them and its price is defined. -/
def normalizeFrom : List String → List Item → List Item
  | _, [] => []
  | accepted, x :: xs =>
      if x.currency ∉ accepted ∧ x.price ≠ JSVal.undefined then
        withAvatar x :: normalizeFrom (x.currency :: accepted) xs
      else normalizeFrom accepted xs

/-- The specification's `normalize`. -/
def normalize (rawEntries : List Item) : List Item :=
  normalizeFrom [] rawEntries

/-! ## React state of `App` -/

/-- The value held by `selectedCurrencyFrom` and `selectedCurrencyTo`: the
empty array they start with, or an item. -/
inductive Selected where
  | emptyArray
  | item (q : Item)
  deriving DecidableEq, Repr

/-- The property access `selected.price`; `undefined` on the empty array. -/
def Selected.price : Selected → JSVal
  | .emptyArray => .undefined
  | .item q => q.price

/-- The five `useState` cells of `App`. -/
structure AppState where
  selectedCurrencyFrom : Selected
  selectedCurrencyTo : Selected
  allCurrencies : List Item
  amountPay : String
  amountReceive : JSVal
  deriving DecidableEq, Repr

/-- The initial values passed to `useState`. -/
def AppState.initial : AppState :=
  { selectedCurrencyFrom := .emptyArray
    selectedCurrencyTo := .emptyArray
    allCurrencies := []
    amountPay := ""
    amountReceive := .str "" }

/-- The state setter `setSelectedCurrencyFrom`. -/
def setSelectedCurrencyFrom (v : Selected) (s : AppState) : AppState :=
  { s with selectedCurrencyFrom := v }

/-- The state setter `setSelectedCurrencyTo`. -/
def setSelectedCurrencyTo (v : Selected) (s : AppState) : AppState :=
  { s with selectedCurrencyTo := v }

/-- The state setter `setAllCurrencies`. -/
def setAllCurrencies (v : List Item) (s : AppState) : AppState :=
  { s with allCurrencies := v }

/-- The state setter `setAmountPay`. -/
def setAmountPay (v : String) (s : AppState) : AppState :=
  { s with amountPay := v }

/-- The state setter `setAmountReceive`. -/
def setAmountReceive (v : JSVal) (s : AppState) : AppState :=
  { s with amountReceive := v }

/-- How a call ends: it returns a value or throws. -/
inductive Outcome (α : Type) where
  | returned (value : α)
  | threw (error : String)
  deriving DecidableEq, Repr

/-! ## Loading the feed -/

/-- What `axios.get` settles to: a response carrying the array `data`, or a
rejection. -/
inductive AxiosResult where
  | resolved (data : List Item)
  | rejected (err : String)
  deriving DecidableEq, Repr

/-- The function `getCurrencyData`: the value it returns (`none` is
`undefined`, the value of a function that falls off its end) and the lines it
writes to the console. -/
def getCurrencyData (r : AxiosResult) : Outcome (Option (List Item)) × List String :=
  match r with
  | .resolved data => (.returned (some data), [])
  | .rejected err => (.returned none, ["Unable to fetch curriencies: " ++ err])

/-- A call `processData(currencyData)` where the argument may be `undefined`:
reading `forEach` of `undefined` throws. -/
def processDataCall (currencyData : Option (List Item)) : Outcome (List Item) :=
  match currencyData with
  | none => .threw "TypeError: Cannot read properties of undefined (reading forEach)"
  | some xs => .returned (processData xs)

/-- The function `mapCurrencyData`: the state after it has run and how its
promise settled. -/
def mapCurrencyData (s : AppState) (r : AxiosResult) : AppState × Outcome Unit :=
  match (getCurrencyData r).1 with
  | .threw e => (s, .threw e)
  | .returned currencyData =>
    match processDataCall currencyData with
    | .threw e => (s, .threw e)
    | .returned filteredCurrencyData =>
      let s1 :=
        if h : filteredCurrencyData.length ≥ 2 then
          setSelectedCurrencyTo (.item (filteredCurrencyData.get ⟨1, by omega⟩))
            (setSelectedCurrencyFrom (.item (filteredCurrencyData.get ⟨0, by omega⟩)) s)
        else s
      (setAllCurrencies filteredCurrencyData s1, .returned ())

/-! ## Conversion -/

/-- The function `swapPriceAmount`: `(amount / currPrice1) * currPrice2`, each
operand converted by `ToNumber`, the quotient and the product each rounded to
binary64. -/
def swapPriceAmount (amount currPrice1 currPrice2 : JSVal) : JSNum :=
  JSNum.mul (JSNum.div (toNumber amount) (toNumber currPrice1)) (toNumber currPrice2)

/-- The `onChange` handler of the `amountPay` input; `value` is
`e.target.value`. -/
def amountPayOnChange (s : AppState) (value : String) : AppState :=
  let s1 := setAmountPay value s
  if looseNeEmpty (.str value) then
    setAmountReceive
      (.num (swapPriceAmount (.str value) s.selectedCurrencyFrom.price
        s.selectedCurrencyTo.price)) s1
  else setAmountReceive (.str "") s1

/-- The function `swapConversion`.  The setters queue their updates, so every
read is of the state before the click. -/
def swapConversion (s : AppState) : AppState :=
  let s1 := setSelectedCurrencyFrom s.selectedCurrencyTo s
  let s2 := setSelectedCurrencyTo s.selectedCurrencyFrom s1
  if looseNeEmpty (.str s.amountPay) then
    setAmountReceive
      (.num (swapPriceAmount (.str s.amountPay) s.selectedCurrencyTo.price
        s.selectedCurrencyFrom.price)) s2
  else setAmountReceive (.str "") s2

/-! ## The list box -/

/-- What the identifiers that `IconListBox.jsx` uses without declaring or
importing resolve to when its `onChange` handler runs; `none` is an identifier
with no binding.  The component receives only `selectedCurrency`,
`onSelectCurrency`, `allCurrencies` and `label`. -/
structure FreeIdents where
  amountPay : Option JSVal
  setAmountReceive : Option (JSVal → AppState → AppState)
  swapPriceAmount : Option (JSVal → JSVal → JSVal → JSNum)

/-- The `onChange` handler of the `Listbox` in `IconListBox`; `e` is the item
chosen.  An identifier without a binding throws a `ReferenceError` where it is
evaluated; the update queued by `onSelectCurrency` before that stands. -/
def IconListBox.onChange (g : FreeIdents) (selectedCurrency : Selected)
    (onSelectCurrency : Selected → AppState → AppState) (s : AppState) (e : Item) :
    AppState × Outcome Unit :=
  let s1 := onSelectCurrency (.item e) s
  match g.amountPay with
  | none => (s1, .threw "ReferenceError: amountPay is not defined")
  | some amountPay =>
    if looseNeEmpty amountPay then
      match g.setAmountReceive with
      | none => (s1, .threw "ReferenceError: setAmountReceive is not defined")
      | some setAmountReceive =>
        match g.swapPriceAmount with
        | none => (s1, .threw "ReferenceError: swapPriceAmount is not defined")
        | some swapPriceAmount =>
          (setAmountReceive (.num (swapPriceAmount amountPay e.price selectedCurrency.price)) s1,
            .returned ())
    else
      match g.setAmountReceive with
      | none => (s1, .threw "ReferenceError: setAmountReceive is not defined")
      | some setAmountReceive => (setAmountReceive (.str "") s1, .returned ())

/-- The bindings of the module `IconListBox.jsx` as the repository has it:
none of the three identifiers is declared, imported or passed as a prop.  (A
browser may still resolve `amountPay` to the input element of that id through
the window object; `setAmountReceive` and `swapPriceAmount` have no binding
either way, and `onChange_without_setter` covers every resolution of the other
two.) -/
def IconListBox.moduleScope : FreeIdents :=
  { amountPay := none, setAmountReceive := none, swapPriceAmount := none }

/-- The bindings the three identifiers have inside `App`, for a state `s`:
what the handler would see were it written in `App.jsx`. -/
def IconListBox.appScope (s : AppState) : FreeIdents :=
  { amountPay := some (.str s.amountPay)
    setAmountReceive := some Swap.setAmountReceive
    swapPriceAmount := some Swap.swapPriceAmount }

/-- Choosing `q` in the "From" list box (`selectedCurrency` is
`selectedCurrencyFrom`, `onSelectCurrency` is `setSelectedCurrencyFrom`). -/
def selectFrom (s : AppState) (q : Item) : AppState × Outcome Unit :=
  IconListBox.onChange IconListBox.moduleScope s.selectedCurrencyFrom
    setSelectedCurrencyFrom s q

/-- Choosing `q` in the "To" list box (`selectedCurrency` is
`selectedCurrencyTo`, `onSelectCurrency` is `setSelectedCurrencyTo`). -/
def selectTo (s : AppState) (q : Item) : AppState × Outcome Unit :=
  IconListBox.onChange IconListBox.moduleScope s.selectedCurrencyTo
    setSelectedCurrencyTo s q

/-! ## The selection and swap machine -/

/-- The user actions on a loaded form. -/
inductive Event where
  | setAmountIn (v : String)
  | selectFrom (q : Item)
  | selectTo (q : Item)
  | swap
  deriving DecidableEq, Repr

/-- The state after one action. -/
def step (s : AppState) : Event → AppState
  | .setAmountIn v => amountPayOnChange s v
  | .selectFrom q => (selectFrom s q).1
  | .selectTo q => (selectTo s q).1
  | .swap => swapConversion s

/-- The state after a sequence of actions. -/
def run (s : AppState) (es : List Event) : AppState :=
  es.foldl step s

/-- The state `Ready` reached by loading `feed` into the initial state. -/
def seeded (feed : List Item) : AppState :=
  (mapCurrencyData AppState.initial (.resolved feed)).1

/-- The conversion a state should show: empty for an empty amount, else
`(amountIn / fromQuote.price) * toQuote.price` in binary64 arithmetic. -/
def expectedAmountOut (s : AppState) : JSVal :=
  if s.amountPay = "" then .str ""
  else .num (JSNum.mul
    (JSNum.div (stringToNumber s.amountPay) (toNumber s.selectedCurrencyFrom.price))
    (toNumber s.selectedCurrencyTo.price))

/-- The invariant of the data model: `amountOut` is empty when `amountIn` is
empty, and is the conversion of `amountIn` when `amountIn` is a non-empty
numeric value. -/
def ConversionInvariant (s : AppState) : Prop :=
  (s.amountPay = "" → s.amountReceive = .str "") ∧
  (s.amountPay ≠ "" → stringToNumber s.amountPay ≠ .nan →
    s.amountReceive = expectedAmountOut s)

instance (s : AppState) : Decidable (ConversionInvariant s) :=
  inferInstanceAs (Decidable (_ ∧ _))

/-! ## Example inputs -/

/-- The feed of the first-occurrence example: A at 1, B at 2, A at 9. -/
def feedABA : List Item :=
  [ { currency := "A", price := .num (.fin 1), fields := [] },
    { currency := "B", price := .num (.fin 2), fields := [] },
    { currency := "A", price := .num (.fin 9), fields := [] } ]

/-- A loaded form with the quote at price 2 selected on the left and the
quote at price 5 on the right, nothing typed. -/
def stateTwoFive : AppState :=
  { selectedCurrencyFrom := .item { currency := "P", price := .num (.fin 2), fields := [] }
    selectedCurrencyTo := .item { currency := "Q", price := .num (.fin 5), fields := [] }
    allCurrencies := []
    amountPay := ""
    amountReceive := .str "" }

/-- The state of the swap example: USD at price 2 on the left, EUR at price 1
on the right, nothing typed. -/
def stateUsdEur : AppState :=
  { selectedCurrencyFrom := .item { currency := "USD", price := .num (.fin 2), fields := [] }
    selectedCurrencyTo := .item { currency := "EUR", price := .num (.fin 1), fields := [] }
    allCurrencies := []
    amountPay := ""
    amountReceive := .str "" }

/-- A loaded form with quotes at price 49 on both sides, nothing typed: one
divided by 49 is not a binary64 value, so the conversion of 1 rounds. -/
def stateFortyNine : AppState :=
  { selectedCurrencyFrom := .item { currency := "X", price := .num (.fin 49), fields := [] }
    selectedCurrencyTo := .item { currency := "Y", price := .num (.fin 49), fields := [] }
    allCurrencies := []
    amountPay := ""
    amountReceive := .str "" }

/-- A loaded form with the quote at price one half on the left and the quote
at price 4 on the right, nothing typed: converting `1e308` overflows. -/
def stateHalfFour : AppState :=
  { selectedCurrencyFrom := .item { currency := "H", price := .num (.fin (1 / 2)), fields := [] }
    selectedCurrencyTo := .item { currency := "F", price := .num (.fin 4), fields := [] }
    allCurrencies := []
    amountPay := ""
    amountReceive := .str "" }

/-- The binary64 value `1 - 2 ^ -53`, printed `0.9999999999999999`: what
`(1 / 49) * 49` evaluates to. -/
def belowOne : JSNum :=
  .fin (9007199254740991 / 9007199254740992)

/-- The first entry of `feedABA` with its avatar attached. -/
def quoteA1 : Item :=
  withAvatar { currency := "A", price := .num (.fin 1), fields := [] }

/-- The feed of the end-to-end example: A at 1, A at 2, B at 4. -/
def feedAAB : List Item :=
  [ { currency := "A", price := .num (.fin 1), fields := [] },
    { currency := "A", price := .num (.fin 2), fields := [] },
    { currency := "B", price := .num (.fin 4), fields := [] } ]

/-- The quote of currency A that `feedAAB` normalises to. -/
def quoteA : Item :=
  withAvatar { currency := "A", price := .num (.fin 1), fields := [] }

/-- The quote of currency B that `feedAAB` normalises to. -/
def quoteB : Item :=
  withAvatar { currency := "B", price := .num (.fin 4), fields := [] }

/-- The loaded form of the example after 10 is typed: A at 1 to B at 4,
showing 40. -/
def stateTyped10 : AppState :=
  run (seeded feedAAB) [.setAmountIn "10"]

/-- What the specification asks of `SelectFrom(q)` for `amountOut`. -/
def selectFromExpected (s : AppState) (q : Item) : JSVal :=
  if s.amountPay = "" then .str ""
  else .num (JSNum.mul (JSNum.div (stringToNumber s.amountPay) (toNumber q.price))
    (toNumber s.selectedCurrencyTo.price))

/-- What the specification asks of `SelectTo(q)` for `amountOut`. -/
def selectToExpected (s : AppState) (q : Item) : JSVal :=
  if s.amountPay = "" then .str ""
  else .num (JSNum.mul
    (JSNum.div (stringToNumber s.amountPay) (toNumber s.selectedCurrencyFrom.price))
    (toNumber q.price))

/-- Whether a call ended by throwing. -/
def Outcome.isThrow {α : Type} : Outcome α → Bool
  | .returned _ => false
  | .threw _ => true

/-! ## Lemmas on object literals and the map -/

theorem setField_idem (fs : List (String × JSVal)) (k : String) (v : JSVal) :
    setField (setField fs k v) k v = setField fs k v := by
  unfold setField
  by_cases h : fs.any (fun p => p.1 == k) = true
  · have h2 : (fs.map (fun p => if p.1 == k then (k, v) else p)).any
        (fun p => p.1 == k) = true := by
      rw [List.any_eq_true] at h ⊢
      obtain ⟨p, hp, hk⟩ := h
      exact ⟨(k, v), List.mem_map.2 ⟨p, hp, by simp [hk]⟩, by simp⟩
    simp only [h, h2, if_true, List.map_map]
    apply List.map_congr_left
    intro p _
    by_cases hk : p.1 = k
    · simp [hk]
    · simp [hk]
  · have h3 : ∀ p ∈ fs, ¬ (p.1 == k) = true := by
      intro p hp hk
      exact h (List.any_eq_true.2 ⟨p, hp, hk⟩)
    have h2 : (fs ++ [(k, v)]).any (fun p => p.1 == k) = true := by simp
    simp only [h, h2, if_true, Bool.false_eq_true, if_false, List.map_append, List.map_cons,
      List.map_nil, beq_self_eq_true]
    congr 1
    conv_rhs => rw [← List.map_id fs]
    apply List.map_congr_left
    intro p hp
    simp [h3 p hp]

theorem withAvatar_idem (x : Item) : withAvatar (withAvatar x) = withAvatar x := by
  simp [withAvatar, setField_idem]

theorem find_map_replace (k : String) (v : JSVal) (fs : List (String × JSVal)) :
    fs.any (fun p => p.1 == k) = true →
      (fs.map (fun p => if p.1 == k then (k, v) else p)).find? (fun p => p.1 == k) =
        some (k, v) := by
  induction fs with
  | nil => intro h; simp at h
  | cons p fs ih =>
    intro h
    by_cases hk : p.1 = k
    · simp [List.find?_cons, hk]
    · have h2 : fs.any (fun p => p.1 == k) = true := by simpa [hk] using h
      have hb : (p.1 == k) = false := by simp [hk]
      have hp : (if (p.1 == k) = true then (k, v) else p) = p := by simp [hk]
      rw [List.map_cons, List.find?_cons, hp, hb]
      exact ih h2

theorem getField_setField (fs : List (String × JSVal)) (k : String) (v : JSVal) :
    getField (setField fs k v) k = v := by
  unfold getField setField
  by_cases h : fs.any (fun p => p.1 == k) = true
  · simp only [h, if_true]
    rw [find_map_replace k v fs h]
  · have h3 : ∀ p ∈ fs, ¬ (p.1 == k) = true := by
      intro p hp hk
      exact h (List.any_eq_true.2 ⟨p, hp, hk⟩)
    have h4 : fs.find? (fun p => p.1 == k) = none := by
      rw [List.find?_eq_none]
      exact h3
    simp [h, List.find?_append, h4]

theorem withAvatar_avatar (x : Item) :
    (withAvatar x).avatar = .str (avatarUrl x.currency) := by
  simp [Item.avatar, withAvatar, getField_setField]

theorem withAvatar_currency (x : Item) : (withAvatar x).currency = x.currency := rfl

theorem withAvatar_price (x : Item) : (withAvatar x).price = x.price := rfl

theorem has_iff_mem_keys (m : JSMap) (k : String) :
    JSMap.has m k = true ↔ k ∈ m.map (fun p => p.1) := by
  simp only [JSMap.has, List.any_eq_true, List.mem_map, beq_iff_eq]

/-- The accepted list matters to `normalizeFrom` only through membership. -/
theorem normalizeFrom_congr (xs : List Item) :
    ∀ a b : List String, (∀ c, c ∈ a ↔ c ∈ b) → normalizeFrom a xs = normalizeFrom b xs := by
  induction xs with
  | nil => intro a b _; rfl
  | cons x xs ih =>
    intro a b hab
    simp only [normalizeFrom, hab x.currency]
    split
    · congr 1
      apply ih
      intro c
      simp [hab c]
    · exact ih a b hab

/-- The loop of `processData` run from a map `m` appends to its values what
the specification's walk accepts with the keys of `m` already taken. -/
theorem foldl_visit_values (xs : List Item) :
    ∀ m : JSMap, JSMap.values (xs.foldl processData.visit m) =
      JSMap.values m ++ normalizeFrom (m.map (fun p => p.1)) xs := by
  induction xs with
  | nil => intro m; simp [normalizeFrom]
  | cons x xs ih =>
    intro m
    rw [List.foldl_cons, ih]
    by_cases hk : JSMap.has m x.currency = true
    · have hmem := (has_iff_mem_keys m x.currency).1 hk
      simp [processData.visit, hk, normalizeFrom, hmem]
    · have hmem : x.currency ∉ m.map (fun p => p.1) :=
        fun h => hk ((has_iff_mem_keys m x.currency).2 h)
      by_cases hp : x.price = JSVal.undefined
      · simp [processData.visit, hk, normalizeFrom, hp]
      · have hv : processData.visit m x = m ++ [(x.currency, withAvatar x)] := by
          simp [processData.visit, hk, hp, JSMap.set]
        rw [hv]
        have hn : normalizeFrom (m.map (fun p => p.1)) (x :: xs) =
            withAvatar x :: normalizeFrom (x.currency :: m.map (fun p => p.1)) xs := by
          simp only [normalizeFrom]
          rw [if_pos ⟨hmem, hp⟩]
        rw [hn]
        have hc : normalizeFrom ((m ++ [(x.currency, withAvatar x)]).map (fun p => p.1)) xs =
            normalizeFrom (x.currency :: m.map (fun p => p.1)) xs := by
          apply normalizeFrom_congr
          intro c
          simp [or_comm]
        rw [hc]
        simp [JSMap.values]

/-- The code's `processData` computes the specification's `normalize`. -/
theorem processData_eq_normalize (xs : List Item) : processData xs = normalize xs := by
  unfold processData normalize
  rw [foldl_visit_values]
  simp [JSMap.values]

theorem normalizeFrom_mem (xs : List Item) :
    ∀ (acc : List String) (y : Item), y ∈ normalizeFrom acc xs →
      y.currency ∉ acc ∧ ∃ x ∈ xs, x.price ≠ JSVal.undefined ∧ y = withAvatar x := by
  induction xs with
  | nil => intro acc y h; simp [normalizeFrom] at h
  | cons x xs ih =>
    intro acc y h
    simp only [normalizeFrom] at h
    split at h
    next hx =>
      rcases List.mem_cons.1 h with rfl | h
      · exact ⟨hx.1, x, List.mem_cons_self _ _, hx.2, rfl⟩
      · obtain ⟨h1, z, hz, hp, rfl⟩ := ih _ _ h
        exact ⟨fun hc => h1 (List.mem_cons_of_mem _ hc), z, List.mem_cons_of_mem _ hz, hp, rfl⟩
    next =>
      obtain ⟨h1, z, hz, hp, rfl⟩ := ih _ _ h
      exact ⟨h1, z, List.mem_cons_of_mem _ hz, hp, rfl⟩

theorem normalizeFrom_nodup (xs : List Item) :
    ∀ acc : List String, ((normalizeFrom acc xs).map (fun y => y.currency)).Nodup := by
  induction xs with
  | nil => intro acc; simp [normalizeFrom]
  | cons x xs ih =>
    intro acc
    simp only [normalizeFrom]
    split
    · rw [List.map_cons, List.nodup_cons]
      refine ⟨?_, ih _⟩
      intro hmem
      obtain ⟨y, hy, hyc⟩ := List.mem_map.1 hmem
      have := (normalizeFrom_mem xs _ y hy).1
      apply this
      rw [hyc]
      exact List.mem_cons_self _ _
    · exact ih acc

theorem normalizeFrom_sublist (xs : List Item) :
    ∀ acc : List String, (normalizeFrom acc xs).Sublist (xs.map withAvatar) := by
  induction xs with
  | nil => intro acc; simp [normalizeFrom]
  | cons x xs ih =>
    intro acc
    simp only [normalizeFrom, List.map_cons]
    split
    · exact (ih _).cons₂ _
    · exact (ih _).cons _

/-- The entries of a given currency in the walk's result: none when the
currency is already taken, else the first priced entry of that currency. -/
theorem normalizeFrom_filter (c : String) (xs : List Item) :
    ∀ acc : List String,
      (normalizeFrom acc xs).filter (fun y => y.currency == c) =
        if c ∈ acc then []
        else ((xs.find? (fun x => x.currency == c && x.price != JSVal.undefined)).map
          withAvatar).toList := by
  induction xs with
  | nil => intro acc; simp [normalizeFrom]
  | cons x xs ih =>
    intro acc
    simp only [normalizeFrom]
    split
    next hx =>
      by_cases hc : x.currency = c
      · subst hc
        have hp : (x.price != JSVal.undefined) = true := by simpa using hx.2
        simp [List.filter_cons, withAvatar_currency, ih, hx.1, List.find?_cons, hp]
      · have hc2 : ¬ c = x.currency := fun h => hc h.symm
        simp [List.filter_cons, withAvatar_currency, ih, hc, hc2, List.find?_cons]
    next hx =>
      rw [ih]
      by_cases hacc : c ∈ acc
      · simp [hacc]
      · by_cases hc : x.currency = c
        · subst hc
          have hp : x.price = JSVal.undefined := by
            by_contra hp
            exact hx ⟨hacc, hp⟩
          simp [hacc, List.find?_cons, hp]
        · simp [hacc, List.find?_cons, hc]

/-- A list that is already normalised is left as it is. -/
theorem normalizeFrom_fixed (ys : List Item) :
    ∀ acc : List String,
      (ys.map (fun y => y.currency)).Nodup →
      (∀ y ∈ ys, y.currency ∉ acc ∧ y.price ≠ JSVal.undefined ∧ withAvatar y = y) →
      normalizeFrom acc ys = ys := by
  induction ys with
  | nil => intro acc _ _; rfl
  | cons y ys ih =>
    intro acc hnd hall
    rw [List.map_cons, List.nodup_cons] at hnd
    obtain ⟨h1, h2, h3⟩ := hall y (List.mem_cons_self _ _)
    simp only [normalizeFrom]
    rw [if_pos ⟨h1, h2⟩, h3]
    congr 1
    apply ih _ hnd.2
    intro z hz
    obtain ⟨z1, z2, z3⟩ := hall z (List.mem_cons_of_mem _ hz)
    refine ⟨?_, z2, z3⟩
    intro hmem
    rcases List.mem_cons.1 hmem with h | h
    · exact hnd.1 (List.mem_map.2 ⟨z, hz, h⟩)
    · exact z1 h

theorem normalize_idem (xs : List Item) : normalize (normalize xs) = normalize xs := by
  unfold normalize
  apply normalizeFrom_fixed _ _ (normalizeFrom_nodup xs [])
  intro y hy
  obtain ⟨_, x, _, hp, rfl⟩ := normalizeFrom_mem xs [] y hy
  exact ⟨by simp, hp, withAvatar_idem x⟩

/-! ## The normaliser: claims -/

/-- C1. The list returned by `processData` has no two entries with the same
currency code, and every entry of it is an input entry whose price was
defined, with the avatar attached (so with that entry's currency and price). -/
theorem processData_unique_and_priced (xs : List Item) :
    ((processData xs).map (fun y => y.currency)).Nodup ∧
    ∀ y ∈ processData xs, ∃ x ∈ xs,
      x.price ≠ JSVal.undefined ∧ y = withAvatar x ∧
      y.currency = x.currency ∧ y.price = x.price := by
  rw [processData_eq_normalize]
  refine ⟨normalizeFrom_nodup xs [], ?_⟩
  intro y hy
  obtain ⟨_, x, hx, hp, rfl⟩ := normalizeFrom_mem xs [] y hy
  exact ⟨x, hx, hp, rfl, rfl, rfl⟩

/-- Witness for C1: on the feed A 1, B 2, A 9 the entry A at price 1 is in the
result, and it is the first input entry, whose price is defined. -/
theorem processData_unique_and_priced_witness :
    quoteA1 ∈ processData feedABA ∧
    ∃ x ∈ feedABA, x.price ≠ JSVal.undefined ∧ quoteA1 = withAvatar x ∧
      quoteA1.currency = x.currency ∧ quoteA1.price = x.price :=
  ⟨by decide, (processData_unique_and_priced feedABA).2 quoteA1 (by decide)⟩

/-- C2. `processData` returns what the specification's walk accepts: in input
order, the entries with a defined price whose currency no earlier accepted
entry has.  The result is a subsequence of the input (avatar attached); for
every currency it holds exactly the first priced entry of that currency, or
nothing when the currency has no priced entry; and the feed A 1, B 2, A 9
gives A at price 1 followed by B at price 2. -/
theorem processData_first_priced_in_order (xs : List Item) :
    processData xs = normalize xs ∧
    (processData xs).Sublist (xs.map withAvatar) ∧
    (∀ c : String, (processData xs).filter (fun y => y.currency == c) =
      ((xs.find? (fun x => x.currency == c && x.price != JSVal.undefined)).map
        withAvatar).toList) ∧
    (processData feedABA).map (fun y => (y.currency, y.price)) =
      [("A", .num (.fin 1)), ("B", .num (.fin 2))] := by
  refine ⟨processData_eq_normalize xs, ?_, ?_, by decide⟩
  · rw [processData_eq_normalize]
    exact normalizeFrom_sublist xs []
  · intro c
    rw [processData_eq_normalize]
    unfold normalize
    rw [normalizeFrom_filter]
    simp

/-- C9. `processData` is idempotent: applied to its own result it returns
that result, entry for entry and field for field; the avatar of every entry
is the templated URL of its currency, before and after the second pass. -/
theorem processData_idempotent (xs : List Item) :
    processData (processData xs) = processData xs ∧
    ∀ y ∈ processData (processData xs), y.avatar = .str (avatarUrl y.currency) := by
  have h : processData (processData xs) = processData xs := by
    rw [processData_eq_normalize (processData xs), processData_eq_normalize xs]
    exact normalize_idem xs
  refine ⟨h, ?_⟩
  intro y hy
  rw [h, processData_eq_normalize] at hy
  obtain ⟨_, x, _, _, rfl⟩ := normalizeFrom_mem xs [] y hy
  exact withAvatar_avatar x

/-! ## The amount field and the swap button -/

theorem looseNeEmpty_str (v : String) : looseNeEmpty (.str v) = !decide (v = "") := by
  simp [looseNeEmpty, bne, BEq.beq]

theorem amountPayOnChange_eq (s : AppState) (v : String) :
    amountPayOnChange s v =
      { s with
        amountPay := v
        amountReceive :=
          if v = "" then .str ""
          else .num (JSNum.mul
            (JSNum.div (stringToNumber v) (toNumber s.selectedCurrencyFrom.price))
            (toNumber s.selectedCurrencyTo.price)) } := by
  unfold amountPayOnChange
  rw [looseNeEmpty_str]
  by_cases h : v = "" <;>
    simp [h, setAmountReceive, setAmountPay, swapPriceAmount, toNumber]

theorem swapConversion_eq (s : AppState) :
    swapConversion s =
      { s with
        selectedCurrencyFrom := s.selectedCurrencyTo
        selectedCurrencyTo := s.selectedCurrencyFrom
        amountReceive :=
          if s.amountPay = "" then .str ""
          else .num (JSNum.mul
            (JSNum.div (stringToNumber s.amountPay) (toNumber s.selectedCurrencyTo.price))
            (toNumber s.selectedCurrencyFrom.price)) } := by
  unfold swapConversion
  rw [looseNeEmpty_str]
  by_cases h : s.amountPay = "" <;>
    simp [h, setAmountReceive, setSelectedCurrencyFrom, setSelectedCurrencyTo,
      swapPriceAmount, toNumber]

/-- C3. The handler of the amount field stores the typed value as
`amountPay`; `amountReceive` becomes the empty string exactly when the typed
value is empty, and otherwise the number `(v / from.price) * to.price` as
binary64 arithmetic computes it (each of the conversion of `v`, the quotient
and the product rounded to nearest, overflowing to an infinity); the previous
`amountReceive` plays no part; typing 100 between prices 2 and 5 gives 250,
typing 1 between prices 49 and 49 gives `0.9999999999999999`, and typing
`1e308` between prices one half and 4 gives `Infinity`. -/
theorem amountPayOnChange_converts (s : AppState) (v : String) :
    (amountPayOnChange s v).amountPay = v ∧
    ((amountPayOnChange s v).amountReceive = .str "" ↔ v = "") ∧
    (amountPayOnChange s v).amountReceive =
      (if v = "" then .str ""
       else .num (JSNum.mul
         (JSNum.div (stringToNumber v) (toNumber s.selectedCurrencyFrom.price))
         (toNumber s.selectedCurrencyTo.price))) ∧
    (∀ prev : JSVal, amountPayOnChange (setAmountReceive prev s) v = amountPayOnChange s v) ∧
    (amountPayOnChange stateTwoFive "100").amountReceive = .num (.fin 250) ∧
    swapPriceAmount (.num (.fin 100)) (.num (.fin 2)) (.num (.fin 5)) = .fin 250 ∧
    (amountPayOnChange stateFortyNine "1").amountReceive = .num belowOne ∧
    (amountPayOnChange stateHalfFour "1e308").amountReceive = .num .posInf := by
  refine ⟨?_, ?_, ?_, ?_, ?_, ?_, ?_, ?_⟩
  · rw [amountPayOnChange_eq]
  · rw [amountPayOnChange_eq]
    by_cases h : v = "" <;> simp [h]
  · rw [amountPayOnChange_eq]
  · intro prev
    rw [amountPayOnChange_eq, amountPayOnChange_eq]
    rfl
  · decide!
  · decide!
  · decide!
  · decide!

/-- C6. `swapConversion` exchanges the two selected quotes, keeps `amountPay`,
and sets `amountReceive` to `(amountPay / newFrom.price) * newTo.price` for
the exchanged quotes, as binary64 arithmetic computes it, when `amountPay` is
not empty and to the empty string otherwise; with USD at 2, EUR at 1 and 100
typed the amount is 50 before the swap and 200 after it; with 49 on both
sides and 1 typed the swap shows `0.9999999999999999`. -/
theorem swapConversion_exchanges (s : AppState) :
    (swapConversion s).selectedCurrencyFrom = s.selectedCurrencyTo ∧
    (swapConversion s).selectedCurrencyTo = s.selectedCurrencyFrom ∧
    (swapConversion s).amountPay = s.amountPay ∧
    (swapConversion s).allCurrencies = s.allCurrencies ∧
    (swapConversion s).amountReceive =
      (if s.amountPay = "" then .str ""
       else .num (JSNum.mul
         (JSNum.div (stringToNumber s.amountPay)
           (toNumber (swapConversion s).selectedCurrencyFrom.price))
         (toNumber (swapConversion s).selectedCurrencyTo.price))) ∧
    (amountPayOnChange stateUsdEur "100").amountReceive = .num (.fin 50) ∧
    swapConversion (amountPayOnChange stateUsdEur "100") =
      { selectedCurrencyFrom := .item { currency := "EUR", price := .num (.fin 1), fields := [] }
        selectedCurrencyTo := .item { currency := "USD", price := .num (.fin 2), fields := [] }
        allCurrencies := []
        amountPay := "100"
        amountReceive := .num (.fin 200) } ∧
    (swapConversion (setAmountPay "1" stateFortyNine)).amountReceive = .num belowOne := by
  refine ⟨?_, ?_, ?_, ?_, ?_, ?_, ?_, ?_⟩
  · rw [swapConversion_eq]
  · rw [swapConversion_eq]
  · rw [swapConversion_eq]
  · rw [swapConversion_eq]
  · rw [swapConversion_eq]
  · decide!
  · decide!
  · decide!

/-- C10. Two swaps in a row restore both selected quotes and `amountPay`,
and leave `amountReceive` at the conversion for the original quotes as
binary64 arithmetic computes it (empty for an empty amount); so the whole
state is restored exactly when `amountReceive` already was that conversion,
in particular in every state that satisfies the conversion invariant with an
empty or numeric amount; with 49 on both sides and 1 typed, two swaps show
`0.9999999999999999`, which the amount field had shown already. -/
theorem swapConversion_involutive (s : AppState) :
    (swapConversion (swapConversion s)).selectedCurrencyFrom = s.selectedCurrencyFrom ∧
    (swapConversion (swapConversion s)).selectedCurrencyTo = s.selectedCurrencyTo ∧
    (swapConversion (swapConversion s)).amountPay = s.amountPay ∧
    (swapConversion (swapConversion s)).allCurrencies = s.allCurrencies ∧
    (swapConversion (swapConversion s)).amountReceive = expectedAmountOut s ∧
    (swapConversion (swapConversion s) = s ↔ s.amountReceive = expectedAmountOut s) ∧
    (ConversionInvariant s →
      (s.amountPay = "" ∨ stringToNumber s.amountPay ≠ .nan) →
      swapConversion (swapConversion s) = s) ∧
    expectedAmountOut (amountPayOnChange stateFortyNine "1") = .num belowOne ∧
    swapConversion (swapConversion (amountPayOnChange stateFortyNine "1")) =
      amountPayOnChange stateFortyNine "1" := by
  have h : swapConversion (swapConversion s) =
      { s with amountReceive := expectedAmountOut s } := by
    rw [swapConversion_eq, swapConversion_eq]
    rfl
  have hiff : swapConversion (swapConversion s) = s ↔
      s.amountReceive = expectedAmountOut s := by
    rw [h]
    constructor
    · intro h2
      have := congrArg AppState.amountReceive h2
      exact this.symm
    · intro h2
      rw [← h2]
  refine ⟨by rw [h], by rw [h], by rw [h], by rw [h], by rw [h], hiff, ?_,
    by decide!, by decide!⟩
  intro hinv hnum
  apply hiff.2
  by_cases he : s.amountPay = ""
  · rw [hinv.1 he]
    simp [expectedAmountOut, he]
  · rcases hnum with h1 | h1
    · exact absurd h1 he
    · exact hinv.2 he h1

/-- Witness for C10: the state reached by typing 100 with USD at 2 and EUR at
1 satisfies the invariant, and two swaps restore it. -/
theorem swapConversion_involutive_witness :
    ConversionInvariant (amountPayOnChange stateUsdEur "100") ∧
    swapConversion (swapConversion (amountPayOnChange stateUsdEur "100")) =
      amountPayOnChange stateUsdEur "100" :=
  have hinv : ConversionInvariant (amountPayOnChange stateUsdEur "100") := by
    decide!
  ⟨hinv, (swapConversion_involutive (amountPayOnChange stateUsdEur "100")).2.2.2.2.2.2.1 hinv
    (Or.inr (by decide!))⟩

/-! ## Loading -/

theorem mapCurrencyData_resolved (s : AppState) (data : List Item) :
    mapCurrencyData s (.resolved data) =
      (setAllCurrencies (processData data)
        (match processData data with
         | a :: b :: _ => setSelectedCurrencyTo (.item b) (setSelectedCurrencyFrom (.item a) s)
         | _ => s),
       .returned ()) := by
  simp only [mapCurrencyData, getCurrencyData, processDataCall]
  rcases processData data with _ | ⟨a, _ | ⟨b, rest⟩⟩ <;> simp

/-- C7. For a feed that was fetched, `mapCurrencyData` completes, stores
`processData` of the feed as `allCurrencies`, and leaves both amounts alone;
when that list has at least two entries the first becomes the "from" quote and
the second the "to" quote, and when it has fewer than two both selections stay
as they were (the empty array, from the initial state).  The feed A 1, A 2,
B 4 gives the list A 1, B 4, selects A and B, and typing 10 then shows 40. -/
theorem mapCurrencyData_seeds_first_two (s : AppState) (data : List Item) :
    (mapCurrencyData s (.resolved data)).2 = .returned () ∧
    (mapCurrencyData s (.resolved data)).1.allCurrencies = processData data ∧
    (mapCurrencyData s (.resolved data)).1.amountPay = s.amountPay ∧
    (mapCurrencyData s (.resolved data)).1.amountReceive = s.amountReceive ∧
    (∀ a b rest, processData data = a :: b :: rest →
      (mapCurrencyData s (.resolved data)).1.selectedCurrencyFrom = .item a ∧
      (mapCurrencyData s (.resolved data)).1.selectedCurrencyTo = .item b) ∧
    ((processData data).length < 2 →
      (mapCurrencyData s (.resolved data)).1.selectedCurrencyFrom = s.selectedCurrencyFrom ∧
      (mapCurrencyData s (.resolved data)).1.selectedCurrencyTo = s.selectedCurrencyTo) ∧
    ((processData data).length < 2 →
      (seeded data).selectedCurrencyFrom = .emptyArray ∧
      (seeded data).selectedCurrencyTo = .emptyArray) ∧
    (seeded feedAAB).allCurrencies = [quoteA, quoteB] ∧
    (seeded feedAAB).allCurrencies.map (fun q => (q.currency, q.price)) =
      [("A", .num (.fin 1)), ("B", .num (.fin 4))] ∧
    (seeded feedAAB).selectedCurrencyFrom = .item quoteA ∧
    (seeded feedAAB).selectedCurrencyTo = .item quoteB ∧
    (amountPayOnChange (seeded feedAAB) "10").amountReceive = .num (.fin 40) := by
  have hlt : ∀ t : AppState, (processData data).length < 2 →
      (mapCurrencyData t (.resolved data)).1.selectedCurrencyFrom = t.selectedCurrencyFrom ∧
      (mapCurrencyData t (.resolved data)).1.selectedCurrencyTo = t.selectedCurrencyTo := by
    intro t h
    rw [mapCurrencyData_resolved]
    rcases hp : processData data with _ | ⟨a, _ | ⟨b, rest⟩⟩
    · exact ⟨rfl, rfl⟩
    · exact ⟨rfl, rfl⟩
    · rw [hp] at h
      simp only [List.length_cons] at h
      omega
  refine ⟨?_, ?_, ?_, ?_, ?_, hlt s, ?_, ?_, ?_, ?_, ?_, ?_⟩
  · rw [mapCurrencyData_resolved]
  · rw [mapCurrencyData_resolved]
    rfl
  · rw [mapCurrencyData_resolved]
    rcases processData data with _ | ⟨a, _ | ⟨b, rest⟩⟩ <;> rfl
  · rw [mapCurrencyData_resolved]
    rcases processData data with _ | ⟨a, _ | ⟨b, rest⟩⟩ <;> rfl
  · intro a b rest h
    rw [mapCurrencyData_resolved, h]
    exact ⟨rfl, rfl⟩
  · intro h
    exact hlt AppState.initial h
  · decide
  · decide
  · decide
  · decide
  · decide!

/-- Witness for C7: on the feed A 1, A 2, B 4 the normalised list starts with
the quotes A and B, which become the selection; a feed with one entry seeds
nothing. -/
theorem mapCurrencyData_seeds_first_two_witness :
    processData feedAAB = quoteA :: quoteB :: [] ∧
    ((mapCurrencyData AppState.initial (.resolved feedAAB)).1.selectedCurrencyFrom =
        .item quoteA ∧
      (mapCurrencyData AppState.initial (.resolved feedAAB)).1.selectedCurrencyTo =
        .item quoteB) ∧
    (processData [quoteA]).length < 2 ∧
    ((seeded [quoteA]).selectedCurrencyFrom = .emptyArray ∧
      (seeded [quoteA]).selectedCurrencyTo = .emptyArray) :=
  ⟨by decide,
   (mapCurrencyData_seeds_first_two AppState.initial feedAAB).2.2.2.2.1
      quoteA quoteB [] (by decide),
   by decide,
   (mapCurrencyData_seeds_first_two AppState.initial [quoteA]).2.2.2.2.2.2.1 (by decide)⟩

/-- C8. When the request is rejected, `getCurrencyData` returns normally with
`undefined` after logging; `mapCurrencyData` then changes no state cell, so
the selected quotes, the price list and both amounts are what they were before
the load: from the initial state the selections stay the empty array and the
price list stays empty. -/
theorem fetch_failure_leaves_state (s : AppState) (err : String) :
    (getCurrencyData (.rejected err)).1 = .returned none ∧
    (getCurrencyData (.rejected err)).2 = ["Unable to fetch curriencies: " ++ err] ∧
    (mapCurrencyData s (.rejected err)).1 = s ∧
    (mapCurrencyData AppState.initial (.rejected err)).1.allCurrencies = [] ∧
    (mapCurrencyData AppState.initial (.rejected err)).1.selectedCurrencyFrom = .emptyArray ∧
    (mapCurrencyData AppState.initial (.rejected err)).1.selectedCurrencyTo = .emptyArray ∧
    (mapCurrencyData AppState.initial (.rejected err)).1.amountPay = "" ∧
    (mapCurrencyData AppState.initial (.rejected err)).1.amountReceive = .str "" :=
  ⟨rfl, rfl, rfl, rfl, rfl, rfl, rfl, rfl⟩

/-! ## The list box -/

/-- Whatever `amountPay` and `swapPriceAmount` resolve to, a handler in whose
scope `setAmountReceive` has no binding applies `onSelectCurrency` and then
throws: `amountReceive` is not written. -/
theorem onChange_without_setter (a : Option JSVal)
    (f : Option (JSVal → JSVal → JSVal → JSNum)) (selectedCurrency : Selected)
    (onSelectCurrency : Selected → AppState → AppState) (s : AppState) (e : Item) :
    (IconListBox.onChange ⟨a, none, f⟩ selectedCurrency onSelectCurrency s e).1 =
        onSelectCurrency (.item e) s ∧
    ∃ msg,
      (IconListBox.onChange ⟨a, none, f⟩ selectedCurrency onSelectCurrency s e).2 =
        .threw msg := by
  unfold IconListBox.onChange
  cases a with
  | none => exact ⟨rfl, _, rfl⟩
  | some v =>
    by_cases h : looseNeEmpty v = true
    · simp [h]
    · simp [h]

theorem selectFrom_eq (s : AppState) (q : Item) :
    selectFrom s q =
      ({ s with selectedCurrencyFrom := .item q },
        .threw "ReferenceError: amountPay is not defined") := rfl

theorem selectTo_eq (s : AppState) (q : Item) :
    selectTo s q =
      ({ s with selectedCurrencyTo := .item q },
        .threw "ReferenceError: amountPay is not defined") := rfl

/-- C5, evaluated.  In the loaded form A at 1 to B at 4 with 10 typed and 40
shown, choosing B on the left replaces the "from" quote and keeps the "to"
quote, but the handler throws before any write to `amountReceive`, which stays
40 where the specification asks for (10 / 4) * 4 = 10; choosing A on the
right likewise leaves 40 where (10 / 1) * 1 = 10 is asked.  Evaluated with
the bindings of `App` instead, the handler computes
`(amountPay / e.price) * selectedCurrency.price`, here 5/2 and 40. -/
theorem select_leaves_amount_stale :
    stateTyped10.amountReceive = .num (.fin 40) ∧
    (selectFrom stateTyped10 quoteB).2.isThrow = true ∧
    (selectFrom stateTyped10 quoteB).1.selectedCurrencyFrom = .item quoteB ∧
    (selectFrom stateTyped10 quoteB).1.selectedCurrencyTo = stateTyped10.selectedCurrencyTo ∧
    (selectFrom stateTyped10 quoteB).1.amountReceive = .num (.fin 40) ∧
    selectFromExpected stateTyped10 quoteB = .num (.fin 10) ∧
    (selectTo stateTyped10 quoteA).1.selectedCurrencyTo = .item quoteA ∧
    (selectTo stateTyped10 quoteA).1.amountReceive = .num (.fin 40) ∧
    selectToExpected stateTyped10 quoteA = .num (.fin 10) ∧
    (IconListBox.onChange (IconListBox.appScope stateTyped10)
      stateTyped10.selectedCurrencyFrom setSelectedCurrencyFrom stateTyped10
      quoteB).1.amountReceive = .num (.fin (5 / 2)) ∧
    (IconListBox.onChange (IconListBox.appScope stateTyped10)
      stateTyped10.selectedCurrencyTo setSelectedCurrencyTo stateTyped10
      quoteA).1.amountReceive = .num (.fin 40) := by
  refine ⟨?_, ?_, ?_, ?_, ?_, ?_, ?_, ?_, ?_, ?_, ?_⟩ <;> decide!

/-! ## The conversion invariant over runs -/

/-- Typing an amount and pressing swap each leave the state showing the
conversion of the amount. -/
theorem step_recomputes (s : AppState) :
    (∀ v, (step s (.setAmountIn v)).amountReceive = expectedAmountOut (step s (.setAmountIn v))) ∧
    (step s .swap).amountReceive = expectedAmountOut (step s .swap) := by
  constructor
  · intro v
    simp only [step]
    rw [amountPayOnChange_eq]
    rfl
  · simp only [step]
    rw [swapConversion_eq]
    rfl

/-- Every run from a loaded form shows an empty amount out whenever the amount
in is empty. -/
theorem run_empty_amount (es : List Event) :
    ∀ s : AppState, (s.amountPay = "" → s.amountReceive = .str "") →
      (run s es).amountPay = "" → (run s es).amountReceive = .str "" := by
  induction es with
  | nil => intro s h; exact h
  | cons e es ih =>
    intro s h
    apply ih (step s e)
    cases e with
    | setAmountIn v =>
      simp only [step]
      rw [amountPayOnChange_eq]
      intro hv
      simp only at hv
      simp [hv]
    | selectFrom q => exact h
    | selectTo q => exact h
    | swap =>
      simp only [step]
      rw [swapConversion_eq]
      intro hv
      simp only at hv
      simp [hv]

/-- C4, evaluated.  From the form loaded with A 1, A 2, B 4, typing 10 gives
a state that satisfies the conversion invariant (40 shown); choosing B, an
entry of the price list, on the left then gives a reachable state with B at 4
to B at 4 and 10 typed that still shows 40, where the invariant asks for
(10 / 4) * 4 = 10. -/
theorem select_breaks_conversion_invariant :
    quoteB ∈ (seeded feedAAB).allCurrencies ∧
    ConversionInvariant (seeded feedAAB) ∧
    ConversionInvariant (run (seeded feedAAB) [.setAmountIn "10"]) ∧
    (run (seeded feedAAB) [.setAmountIn "10", .selectFrom quoteB]).amountPay = "10" ∧
    stringToNumber "10" = .fin 10 ∧
    (run (seeded feedAAB) [.setAmountIn "10", .selectFrom quoteB]).amountReceive =
      .num (.fin 40) ∧
    expectedAmountOut (run (seeded feedAAB) [.setAmountIn "10", .selectFrom quoteB]) =
      .num (.fin 10) ∧
    ¬ ConversionInvariant (run (seeded feedAAB) [.setAmountIn "10", .selectFrom quoteB]) := by
  refine ⟨?_, ?_, ?_, ?_, ?_, ?_, ?_, ?_⟩ <;> decide!

end Swap

